import Mathlib

/-!
Verification of the correlation/significance pipeline of the Vietnam
enterprise-survey analysis scripts.

The embedding models, from the repository sources:
* the long-format indicator table (`Row`) shared by `analysis.py`,
  `analyze_data.py` and `correlation_significance.py`;
* `drop_duplicates(subset=['cut','subcut','indicator'], keep='first')`,
  the pivot to one row per `(cut, subcut)` segment with one column per
  indicator, and the `dropna(how='all', subset=...)` step
  (`analyze_data.py` lines 84-96, `correlation_significance.py` 56-66);
* `get_value` (`analysis.py`) and `extract_metrics` (`analyze_data.py`);
* `calculate_t_statistic`, `get_p_value`, `get_significance`,
  `get_strength_description` (`correlation_significance.py` 97-195);
* the pandas pairwise-complete Pearson correlation used by
  `pivoted[corr_indicators].corr()`, and the per-pair analysis loop that
  rounds `r` to two decimals and feeds the total row count `n` to the
  t-statistic (`correlation_significance.py` 197-199, 232-244, 403-422).

Missing values (pandas `NaN`) are modelled with `Option`: a cell holds
`some q` for a parsed numeric value and `none` for a missing one.  Numeric
CSV data is modelled with `ℚ`; the real-valued statistics (square roots)
live in `ℝ`.  `scipy.stats.t.cdf` is treated as an opaque function
parameter.
-/

/-- One record of the long-format table: segmentation dimension `cut`,
segment value `subcut`, indicator code, and numeric cells `value`, `se`,
`N` (each possibly missing, pandas `NaN` after coercion). -/
structure Row where
  cut : String
  subcut : String
  indicator : String
  value : Option ℚ
  se : Option ℚ
  N : Option ℚ
deriving Repr, DecidableEq

/-- The `(cut, subcut, indicator)` key used by
`drop_duplicates(subset=['cut', 'subcut', 'indicator'])`. -/
def rowKey (r : Row) : String × String × String := (r.cut, r.subcut, r.indicator)

/-- Scan of pandas `drop_duplicates(keep='first')`: walk the list keeping
a row whenever its key has not been seen yet, dropping it otherwise. -/
def dedupByAux {α β : Type} [DecidableEq β] (f : α → β) (seen : List β) : List α → List α
  | [] => []
  | a :: as =>
    if f a ∈ seen then dedupByAux f seen as
    else a :: dedupByAux f (f a :: seen) as

/-- Generic first-occurrence deduplication by a key function: keeps the
first row of each key in input order, discarding later rows with an
already-seen key (pandas `drop_duplicates(keep='first')` semantics). -/
def dedupBy {α β : Type} [DecidableEq β] (f : α → β) (l : List α) : List α :=
  dedupByAux f [] l

/-- Model of `filtered = all_groups[...].drop_duplicates(subset=['cut','subcut','indicator'], keep='first')`. -/
def drop_duplicates (rows : List Row) : List Row := dedupBy rowKey rows

/-- The filtering that precedes the pivot: keep rows whose `subcut` is
nonempty and whose indicator is in the requested correlation indicator
list, then deduplicate by `(cut, subcut, indicator)` keeping the first
occurrence (`analyze_data.py` lines 84-90, `correlation_significance.py`
lines 56-60). -/
def filteredRows (data : List Row) (inds : List String) : List Row :=
  drop_duplicates (data.filter (fun r => decide (r.subcut ≠ "" ∧ r.indicator ∈ inds)))

/-- One row of the pivoted wide table: a `(cut, subcut)` segment with one
`(indicator, value)` cell per requested indicator column. -/
structure WideRow where
  cut : String
  subcut : String
  vals : List (String × Option ℚ)
deriving Repr, DecidableEq

/-- The cell of the pivot for segment `(c, s)` and indicator column `i`:
the `value` of the matching row if one exists, missing otherwise. -/
def findCell (rows : List Row) (c s i : String) : Option ℚ :=
  match rows.find? (fun r => decide (rowKey r = (c, s, i))) with
  | some r => r.value
  | none => none

/-- Build the wide row of one segment from the filtered long rows. -/
def buildWide (rows : List Row) (inds : List String) (k : String × String) : WideRow :=
  ⟨k.1, k.2, inds.map (fun i => (i, findCell rows k.1 k.2 i))⟩

/-- Does a wide row have at least one non-missing indicator cell?  This is
the survival test of `dropna(how='all', subset=corr_indicators)`. -/
def hasSomeVal (w : WideRow) : Bool := w.vals.any (fun p => p.2.isSome)

/-- The full pivot of `analyze_data.py` lines 84-96 /
`correlation_significance.py` lines 56-66: filter to nonempty `subcut` and
requested indicators, deduplicate keeping first, build one wide row per
distinct `(cut, subcut)` segment, then drop rows all of whose indicator
cells are missing. -/
def pivotTable (data : List Row) (inds : List String) : List WideRow :=
  ((dedupBy id ((filteredRows data inds).map (fun r => (r.cut, r.subcut)))).map
    (buildWide (filteredRows data inds) inds)).filter hasSomeVal

/-- Model of `get_value` (`analysis.py`): filter the table to the matching
`(cut, subcut, indicator)` rows (the `All`/`All` case runs the same filter
with the literal strings) and return the `value` of the first match, or
`none` (Python `None`) when no row matches.  The outer `Option` is row
presence; the inner `Option ℚ` is the (possibly missing) cell itself. -/
def get_value (df : List Row) (cut subcut indicator : String) : Option (Option ℚ) :=
  let row :=
    if cut = "All" ∧ subcut = "All" then
      df.filter (fun r => decide (r.cut = "All" ∧ r.subcut = "All" ∧ r.indicator = indicator))
    else
      df.filter (fun r => decide (r.cut = cut ∧ r.subcut = subcut ∧ r.indicator = indicator))
  match row with
  | [] => none
  | r :: _ => some r.value

/-- The projected record returned by `extract_metrics`
(`filtered[['indicator', 'value', 'se', 'N']]`). -/
structure Metrics where
  indicator : String
  value : Option ℚ
  se : Option ℚ
  N : Option ℚ
deriving Repr, DecidableEq

/-- Model of `extract_metrics` (`analyze_data.py` lines 15-17): the rows matching
`cut`, `subcut` whose indicator is in the requested list, projected to the
`indicator`, `value`, `se`, `N` columns. -/
def extract_metrics (df : List Row) (indicators : List String) (cut subcut : String) :
    List Metrics :=
  (df.filter (fun r => decide (r.cut = cut ∧ r.subcut = subcut ∧ r.indicator ∈ indicators))).map
    (fun r => ⟨r.indicator, r.value, r.se, r.N⟩)

/-- The value of the t-statistic as the code produces it: `np.inf`,
`-np.inf`, or a finite float. -/
inductive TVal where
  | posInf : TVal
  | negInf : TVal
  | fin : ℝ → TVal

/-- Model of `calculate_t_statistic` (`correlation_significance.py` lines 97-114):
`±∞` when `abs(r) == 1` (sign of `r`), otherwise
`r * sqrt((n - 2) / (1 - r**2))`. -/
noncomputable def calculate_t_statistic (r : ℝ) (n : ℕ) : TVal :=
  if |r| = 1 then (if 0 < r then .posInf else .negInf)
  else .fin (r * Real.sqrt (((n : ℝ) - 2) / (1 - r ^ 2)))

/-- Model of `get_p_value` (`correlation_significance.py` lines 117-133): `0.0` for
an infinite t-statistic, otherwise `2 * (1 - stats.t.cdf(abs(t), df))`.
`scipy.stats.t.cdf` is passed in as the opaque function `cdf`. -/
def get_p_value (cdf : ℝ → ℝ → ℝ) (t : TVal) (df : ℝ) : ℝ :=
  match t with
  | .posInf => 0
  | .negInf => 0
  | .fin x => 2 * (1 - cdf |x| df)

/-- Model of `get_significance` (`correlation_significance.py` lines 136-147). -/
def get_significance {α : Type} [LinearOrderedField α] (p : α) : String :=
  if p < 1 / 1000 then "***"
  else if p < 1 / 100 then "**"
  else if p < 1 / 20 then "*"
  else "ns"

/-- Model of `get_strength_description` (`correlation_significance.py` lines
150-195): strength tier from `abs(r)`, direction from `r > 0`,
significance phrase from `p`, combined as
`f"{strength} {direction} correlation, {significance}"`. -/
def get_strength_description {α : Type} [LinearOrderedField α] (r p : α) : String :=
  let abs_r := |r|
  let strength :=
    if abs_r > 70 / 100 then "Very strong"
    else if abs_r > 50 / 100 then "Strong"
    else if abs_r > 30 / 100 then "Moderate"
    else "Weak"
  let direction := if 0 < r then "positive" else "negative"
  let significance :=
    if p < 1 / 1000 then "highly significant"
    else if p < 1 / 100 then "significant"
    else if p < 1 / 20 then "marginally significant"
    else "not significant"
  strength ++ " " ++ direction ++ " correlation, " ++ significance

/-- The interpretation string exactly as the specification words it
(spec section 4.4): strength by bands of `|r|` with inclusive upper
bounds, direction `"positive"` iff `r > 0` (`"negative"` otherwise,
including `r = 0`), and the significance phrase ladder on `p`.  Stated
separately from `get_strength_description` so that the two can be proved
to agree. -/
def specInterpretation {α : Type} [LinearOrderedField α] (r p : α) : String :=
  let strength :=
    if 70 / 100 < |r| then "Very strong"
    else if 50 / 100 < |r| ∧ |r| ≤ 70 / 100 then "Strong"
    else if 30 / 100 < |r| ∧ |r| ≤ 50 / 100 then "Moderate"
    else "Weak"
  let direction := if 0 < r then "positive" else "negative"
  let phrase :=
    if p < 1 / 1000 then "highly significant"
    else if p < 1 / 100 then "significant"
    else if p < 1 / 20 then "marginally significant"
    else "not significant"
  strength ++ " " ++ direction ++ " correlation, " ++ phrase

/-- Look up the cell of indicator column `i` in a wide row. -/
def lookupVal (w : WideRow) (i : String) : Option ℚ :=
  match w.vals.find? (fun p => decide (p.1 = i)) with
  | some p => p.2
  | none => none

/-- The pairwise-complete observations for columns `i` and `j`: the
`(value_i, value_j)` pairs of the wide rows where both cells are
non-missing.  This is the observation set pandas `DataFrame.corr` uses
for the `(i, j)` entry. -/
def pairedVals (wide : List WideRow) (i j : String) : List (ℚ × ℚ) :=
  wide.filterMap (fun w =>
    match lookupVal w i, lookupVal w j with
    | some a, some b => some (a, b)
    | _, _ => none)

/-- The pair-specific complete-case count for columns `i` and `j`. -/
def pairCount (wide : List WideRow) (i j : String) : ℕ := (pairedVals wide i j).length

/-- Arithmetic mean (zero on the empty list, where pandas would produce
`NaN`; every use below is guarded by a nonzero-variance validity check). -/
def meanQ (xs : List ℚ) : ℚ := xs.sum / xs.length

/-- Mean of the first components of the paired observations. -/
def xmean (ps : List (ℚ × ℚ)) : ℚ := meanQ (ps.map Prod.fst)

/-- Mean of the second components of the paired observations. -/
def ymean (ps : List (ℚ × ℚ)) : ℚ := meanQ (ps.map Prod.snd)

/-- Centred sum of squares of the first components. -/
def sxx (ps : List (ℚ × ℚ)) : ℚ := (ps.map (fun p => (p.1 - xmean ps) ^ 2)).sum

/-- Centred sum of squares of the second components. -/
def syy (ps : List (ℚ × ℚ)) : ℚ := (ps.map (fun p => (p.2 - ymean ps) ^ 2)).sum

/-- Centred sum of cross products. -/
def sxy (ps : List (ℚ × ℚ)) : ℚ :=
  (ps.map (fun p => (p.1 - xmean ps) * (p.2 - ymean ps))).sum

/-- Pearson correlation over a list of paired observations, in the shape
pandas `nancorr` computes it: centred cross-product sum divided by the
square root of the product of the centred squared sums. -/
noncomputable def pearsonR (ps : List (ℚ × ℚ)) : ℝ :=
  (sxy ps : ℝ) / Real.sqrt ((sxx ps * syy ps : ℚ) : ℝ)

/-- One entry of `corr_matrix = pivoted[corr_indicators].corr()`
(`correlation_significance.py` line 91): the Pearson correlation of
columns `i`, `j` over their pairwise-complete rows, or `none` (pandas
`NaN`) when the divisor `sqrt(sxx * syy)` is zero — fewer than two
complete observations or a zero-variance column. -/
noncomputable def corrEntry (wide : List WideRow) (i j : String) : Option ℝ :=
  let ps := pairedVals wide i j
  if sxx ps = 0 ∨ syy ps = 0 then none else some (pearsonR ps)

/-- Round-half-even to an integer, the rounding Python's builtin `round`
applies. -/
noncomputable def roundHalfEven (x : ℝ) : ℤ :=
  if Int.fract x < 1 / 2 then ⌊x⌋
  else if 1 / 2 < Int.fract x then ⌊x⌋ + 1
  else if Even ⌊x⌋ then ⌊x⌋ else ⌊x⌋ + 1

/-- Python `round(x, 2)`: round-half-even to two decimal places. -/
noncomputable def roundR2 (x : ℝ) : ℝ := (roundHalfEven (100 * x) : ℝ) / 100

/-- The per-pair statistics record produced by the analysis loops of
`correlation_significance.py` (lines 232-264 and 403-422).  `none`
components model pandas `NaN` propagated from an undefined correlation. -/
structure PairStats where
  rRounded : Option ℝ
  nUsed : ℕ
  t : Option TVal
  p : Option ℝ
  sig : Option String
  interp : Option String

/-- The body of the analysis loops of `correlation_significance.py`: read
`r = corr_matrix.loc[ind1, ind2]`, round it to two decimals, then compute
`t = calculate_t_statistic(r, n)`, `p = get_p_value(t, df)` and
`sig = get_significance(p)`, where `n = len(pivoted)` (the total wide-row
count, lines 197-199) and `df = n - 2`, the same for every pair.  An
undefined correlation (`NaN`) propagates as `none`. -/
noncomputable def analyzePair (cdf : ℝ → ℝ → ℝ) (wide : List WideRow) (i j : String) :
    PairStats :=
  let n := wide.length
  let df := (n : ℝ) - 2
  let r := (corrEntry wide i j).map roundR2
  let t := r.map (fun x => calculate_t_statistic x n)
  let p := t.map (fun tv => get_p_value cdf tv df)
  { rRounded := r, nUsed := n, t := t, p := p, sig := p.map get_significance,
    interp := r.map (fun x =>
      get_strength_description x (get_p_value cdf (calculate_t_statistic x n) df)) }

/-- A concrete four-segment wide table whose `x`/`y` Pearson correlation
is `20/29 = 0.6896…`, a value that changes under rounding to two
decimals: deviations from the column means `(42, 42)` are
`(1, 41), (1, -1), (-1, 1), (-1, -41)`, so `sxx = 4`, `syy = 3364`,
`sxy = 80` and `r = 80 / sqrt(13456) = 20/29`. -/
def roundingWitnessTable : List WideRow :=
  [⟨"c", "s1", [("x", some 43), ("y", some 83)]⟩,
   ⟨"c", "s2", [("x", some 43), ("y", some 41)]⟩,
   ⟨"c", "s3", [("x", some 41), ("y", some 43)]⟩,
   ⟨"c", "s4", [("x", some 41), ("y", some 1)]⟩]

/-- C1: for every correlation coefficient `r` and sample size `n`,
`calculate_t_statistic` returns `+∞` at `r = 1`, `-∞` at `r = -1`, and
otherwise the finite value `r * sqrt((n - 2) / (1 - r^2))`. -/
theorem t_statistic_cases (r : ℝ) (n : ℕ) :
    calculate_t_statistic 1 n = TVal.posInf ∧
    calculate_t_statistic (-1) n = TVal.negInf ∧
    (r ≠ 1 → r ≠ -1 →
      calculate_t_statistic r n =
        TVal.fin (r * Real.sqrt (((n : ℝ) - 2) / (1 - r ^ 2)))) := by
  refine ⟨?_, ?_, ?_⟩
  · simp [calculate_t_statistic]
  · norm_num [calculate_t_statistic]
  · intro h1 h2
    have habs : ¬ |r| = 1 := by
      rw [abs_eq (by norm_num : (0 : ℝ) ≤ 1)]
      tauto
    simp [calculate_t_statistic, habs]

/-- Witness for C1: the generic case at `r = 0`, `n = 5`. -/
theorem t_statistic_cases_witness :
    calculate_t_statistic 0 5 =
      TVal.fin (0 * Real.sqrt ((((5 : ℕ) : ℝ) - 2) / (1 - (0 : ℝ) ^ 2))) :=
  (t_statistic_cases 0 5).2.2 (by norm_num) (by norm_num)

/-- C3: for a finite t-statistic the p-value is
`2 * (1 - cdf |t| df)` with `df = n - 2`; the t-statistics of `r = 1.0`
and `r = -1.0` are infinite, give the p-value exactly `0.0`, and the
significance tier `"***"`. -/
theorem p_value_cases (cdf : ℝ → ℝ → ℝ) (x : ℝ) (n : ℕ) :
    get_p_value cdf (TVal.fin x) ((n : ℝ) - 2) = 2 * (1 - cdf |x| ((n : ℝ) - 2)) ∧
    get_p_value cdf (calculate_t_statistic 1 n) ((n : ℝ) - 2) = 0 ∧
    get_p_value cdf (calculate_t_statistic (-1) n) ((n : ℝ) - 2) = 0 ∧
    get_significance (get_p_value cdf (calculate_t_statistic 1 n) ((n : ℝ) - 2)) = "***" ∧
    get_significance (get_p_value cdf (calculate_t_statistic (-1) n) ((n : ℝ) - 2)) = "***" := by
  have h1 : calculate_t_statistic 1 n = TVal.posInf := by simp [calculate_t_statistic]
  have h2 : calculate_t_statistic (-1) n = TVal.negInf := by norm_num [calculate_t_statistic]
  refine ⟨rfl, ?_, ?_, ?_, ?_⟩
  · rw [h1]; norm_num [get_p_value]
  · rw [h2]; norm_num [get_p_value]
  · rw [h1]; norm_num [get_p_value, get_significance]
  · rw [h2]; norm_num [get_p_value, get_significance]

/-- C6: `get_strength_description` produces exactly the interpretation
string the specification describes: strength banded by `|r|` with
inclusive upper bounds, direction `"positive"` iff `r > 0` (else
`"negative"`, including `r = 0`), and the significance phrase ladder. -/
theorem interpretation_matches_spec {α : Type} [LinearOrderedField α] (r p : α) :
    get_strength_description r p = specInterpretation r p := by
  simp only [get_strength_description, specInterpretation, gt_iff_lt]
  by_cases h1 : 70 / 100 < |r|
  · simp [h1]
  · have h1' : |r| ≤ 70 / 100 := not_lt.mp h1
    by_cases h2 : 50 / 100 < |r|
    · simp [h1, h2, h1']
    · have h2' : |r| ≤ 50 / 100 := not_lt.mp h2
      by_cases h3 : 30 / 100 < |r|
      · simp [h1, h2, h3, h1', h2']
      · simp [h1, h2, h3]

/-- C9: when no row with the requested `(cut, subcut, indicator)` exists,
`get_value` returns `none` (Python `None`) — never a synthesized zero and,
being total, never an error — and the indicator is absent from the
`extract_metrics` result. -/
theorem missing_row_gives_none (df : List Row) (inds : List String) (c s i : String)
    (h : ∀ r ∈ df, ¬(r.cut = c ∧ r.subcut = s ∧ r.indicator = i)) :
    get_value df c s i = none ∧
    ∀ m ∈ extract_metrics df inds c s, m.indicator ≠ i := by
  constructor
  · unfold get_value
    split
    · rename_i hAll
      obtain ⟨hc, hs⟩ := hAll
      subst hc; subst hs
      have hnil : df.filter
          (fun r => decide (r.cut = "All" ∧ r.subcut = "All" ∧ r.indicator = i)) = [] := by
        rw [List.filter_eq_nil_iff]
        intro r hr
        simpa using h r hr
      rw [hnil]
    · have hnil : df.filter
          (fun r => decide (r.cut = c ∧ r.subcut = s ∧ r.indicator = i)) = [] := by
        rw [List.filter_eq_nil_iff]
        intro r hr
        simpa using h r hr
      rw [hnil]
  · intro m hm
    simp only [extract_metrics, List.mem_map, List.mem_filter, decide_eq_true_eq] at hm
    obtain ⟨r, ⟨hrdf, hc, hs, _⟩, hrm⟩ := hm
    intro hmi
    exact h r hrdf ⟨hc, hs, by rw [← hrm] at hmi; exact hmi⟩

/-- Witness for C9: the spec's scenario — looking up `bready_t1` for the
segment `(Size, Large (100+))` in a table that has no such row. -/
theorem missing_row_gives_none_witness :
    get_value [⟨"Size", "Large (100+)", "t5", some 1, none, none⟩]
      "Size" "Large (100+)" "bready_t1" = none :=
  (missing_row_gives_none [⟨"Size", "Large (100+)", "t5", some 1, none, none⟩]
    ["bready_t1"] "Size" "Large (100+)" "bready_t1" (by decide)).1

/-- Filtering with a superset predicate does not change `find?`: if every
element satisfying `p` also satisfies `q`, searching the `q`-filtered list
finds the same first `p`-element as searching the original list. -/
theorem find?_filter_superset {α : Type} (p q : α → Bool) (l : List α)
    (h : ∀ a, p a = true → q a = true) :
    (l.filter q).find? p = l.find? p := by
  induction l with
  | nil => rfl
  | cons a as ih =>
    by_cases hq : q a = true
    · rw [List.filter_cons_of_pos hq]
      by_cases hp : p a = true
      · rw [List.find?_cons_of_pos _ hp, List.find?_cons_of_pos _ hp]
      · rw [List.find?_cons_of_neg _ (by simp [hp]), List.find?_cons_of_neg _ (by simp [hp]), ih]
    · rw [List.filter_cons_of_neg (by simp [hq])]
      have hp : ¬ p a = true := fun hpa => hq (h a hpa)
      rw [ih, List.find?_cons_of_neg _ (by simp [hp])]

/-- Searching the deduplicated scan for a fixed key finds `none` if the
key was already seen, and otherwise exactly what searching the
undeduplicated list finds: the first occurrence. -/
theorem dedupByAux_find?_key {α β : Type} [DecidableEq β] (f : α → β) (k : β)
    (l : List α) :
    ∀ seen : List β, (dedupByAux f seen l).find? (fun a => decide (f a = k)) =
      if k ∈ seen then none else l.find? (fun a => decide (f a = k)) := by
  induction l with
  | nil => intro seen; by_cases hk : k ∈ seen <;> simp [dedupByAux, hk]
  | cons a as ih =>
    intro seen
    simp only [dedupByAux]
    by_cases hs : f a ∈ seen
    · rw [if_pos hs, ih seen]
      by_cases hk : k ∈ seen
      · rw [if_pos hk, if_pos hk]
      · have hak : ¬ f a = k := fun h => hk (h ▸ hs)
        rw [if_neg hk, if_neg hk, List.find?_cons_of_neg _ (by simp [hak])]
    · rw [if_neg hs]
      by_cases hak : f a = k
      · subst hak
        rw [List.find?_cons_of_pos _ (by simp), if_neg hs,
          List.find?_cons_of_pos _ (by simp)]
      · rw [List.find?_cons_of_neg _ (by simp [hak]), ih (f a :: seen)]
        by_cases hk : k ∈ seen
        · rw [if_pos (List.mem_cons_of_mem _ hk), if_pos hk]
        · have hk' : ¬ k ∈ f a :: seen := by
            rw [List.mem_cons]
            rintro (h | h)
            · exact hak h.symm
            · exact hk h
          rw [if_neg hk', if_neg hk, List.find?_cons_of_neg _ (by simp [hak])]

/-- Deduplication keeps, for every `(cut, subcut, indicator)` key, the
first-occurring row: the pivot's cell lookup over the deduplicated table
equals the lookup over the raw table. -/
theorem findCell_drop_duplicates (rows : List Row) (c s i : String) :
    findCell (drop_duplicates rows) c s i = findCell rows c s i := by
  unfold findCell drop_duplicates dedupBy
  rw [dedupByAux_find?_key rowKey (c, s, i) rows []]
  rfl

/-- C4: deduplication keeps the value of the first-occurring row of each
`(cut, subcut, indicator)` key — the pivot's cell lookup is unchanged by
`drop_duplicates` — and on the concrete duplicate-key input
`[(A,B,X,1), (A,B,X,2)]` the pivot output carries `value = 1`. -/
theorem pivot_keeps_first_duplicate :
    (∀ rows c s i, findCell (drop_duplicates rows) c s i = findCell rows c s i) ∧
    pivotTable
        [⟨"A", "B", "X", some 1, none, none⟩, ⟨"A", "B", "X", some 2, none, none⟩]
        ["X"] =
      [⟨"A", "B", [("X", some 1)]⟩] := by
  exact ⟨fun rows c s i => findCell_drop_duplicates rows c s i, by decide⟩

/-- Every element of the deduplication scan comes from the input list. -/
theorem mem_of_mem_dedupByAux {α β : Type} [DecidableEq β] (f : α → β) (l : List α)
    (a : α) : ∀ seen : List β, a ∈ dedupByAux f seen l → a ∈ l := by
  induction l with
  | nil => intro seen ha; simp [dedupByAux] at ha
  | cons b bs ih =>
    intro seen ha
    simp only [dedupByAux] at ha
    by_cases hb : f b ∈ seen
    · rw [if_pos hb] at ha
      exact List.mem_cons_of_mem _ (ih seen ha)
    · rw [if_neg hb] at ha
      rcases List.mem_cons.mp ha with h | h
      · exact h ▸ List.mem_cons_self _ _
      · exact List.mem_cons_of_mem _ (ih (f b :: seen) h)

/-- Rows surviving the pre-pivot filter and deduplication are rows of the
input data with a nonempty `subcut` and a requested indicator. -/
theorem mem_filteredRows (data : List Row) (inds : List String) (r : Row)
    (hr : r ∈ filteredRows data inds) :
    r ∈ data ∧ r.subcut ≠ "" ∧ r.indicator ∈ inds := by
  have h1 : r ∈ data.filter (fun r => decide (r.subcut ≠ "" ∧ r.indicator ∈ inds)) :=
    mem_of_mem_dedupByAux rowKey _ r [] hr
  rw [List.mem_filter, decide_eq_true_eq] at h1
  exact ⟨h1.1, h1.2⟩

/-- If every row of segment `(c, s)` with a requested indicator has a
missing value, then every pivot cell of that segment is missing. -/
theorem findCell_none_of_all_missing (data : List Row) (inds : List String)
    (c s i : String)
    (h : ∀ r ∈ data, r.cut = c → r.subcut = s → r.indicator ∈ inds → r.value = none)
    (hi : i ∈ inds) :
    findCell (filteredRows data inds) c s i = none := by
  unfold findCell
  split
  · rename_i r hfind
    have hmem : r ∈ filteredRows data inds := List.mem_of_find?_eq_some hfind
    have hp := List.find?_some hfind
    rw [decide_eq_true_eq] at hp
    unfold rowKey at hp
    have hkey : r.cut = c ∧ r.subcut = s ∧ r.indicator = i := by
      exact ⟨congrArg Prod.fst hp, congrArg (fun q => q.2.1) hp, congrArg (fun q => q.2.2) hp⟩
    exact h r (mem_filteredRows data inds r hmem).1 hkey.1 hkey.2.1 (hkey.2.2 ▸ hi)
  · rfl

/-- C5: a segment all of whose requested-indicator values are missing
never appears in the pivot output, and every pivot output row has at
least one non-missing indicator cell (the `dropna(how='all')` step). -/
theorem pivot_drops_all_missing_segment :
    (∀ data inds c s,
      (∀ r ∈ data, r.cut = c → r.subcut = s → r.indicator ∈ inds → r.value = none) →
      (pivotTable data inds).all (fun w => !(w.cut == c && w.subcut == s)) = true) ∧
    (∀ data inds, ∀ w ∈ pivotTable data inds, ∃ p ∈ w.vals, p.2.isSome = true) := by
  constructor
  · intro data inds c s h
    rw [List.all_eq_true]
    intro w hw
    rw [pivotTable, List.mem_filter] at hw
    obtain ⟨hwmem, hwsome⟩ := hw
    rw [List.mem_map] at hwmem
    obtain ⟨k, _, hk⟩ := hwmem
    by_cases hcs : w.cut = c ∧ w.subcut = s
    · exfalso
      have hk1 : k.1 = c := by rw [← hcs.1, ← hk]; rfl
      have hk2 : k.2 = s := by rw [← hcs.2, ← hk]; rfl
      rw [hasSomeVal, List.any_eq_true] at hwsome
      obtain ⟨p, hpmem, hpsome⟩ := hwsome
      rw [← hk] at hpmem
      simp only [buildWide, List.mem_map] at hpmem
      obtain ⟨i, hiins, hip⟩ := hpmem
      rw [← hip] at hpsome
      simp only at hpsome
      rw [hk1, hk2, findCell_none_of_all_missing data inds c s i h hiins] at hpsome
      simp at hpsome
    · simp only [Bool.not_eq_eq_eq_not, Bool.not_true, Bool.and_eq_false_iff]
      rcases not_and_or.mp hcs with hne | hne
      · exact Or.inl (beq_eq_false_iff_ne.mpr hne)
      · exact Or.inr (beq_eq_false_iff_ne.mpr hne)
  · intro data inds w hw
    rw [pivotTable, List.mem_filter] at hw
    have := hw.2
    rw [hasSomeVal, List.any_eq_true] at this
    exact this

/-- Witness for C5: a one-segment table whose only requested-indicator
value is missing produces a pivot with no row for that segment. -/
theorem pivot_drops_all_missing_segment_witness :
    (pivotTable [⟨"A", "B", "X", none, none, none⟩] ["X"]).all
      (fun w => !(w.cut == "A" && w.subcut == "B")) = true :=
  pivot_drops_all_missing_segment.1 [⟨"A", "B", "X", none, none, none⟩] ["X"] "A" "B"
    (by decide)

/-- C2: the sample size the analysis loop feeds into the t-statistic is
`len(pivoted)` — the total wide-table row count, identical for every
indicator pair, and the quantity from which the pair's t-statistic is
computed — and it can differ from the pair-specific count of rows with
complete data for the pair. -/
theorem t_statistic_uses_total_segment_count (cdf : ℝ → ℝ → ℝ) (wide : List WideRow)
    (i j i' j' : String) :
    (analyzePair cdf wide i j).nUsed = wide.length ∧
    (analyzePair cdf wide i j).t =
      ((analyzePair cdf wide i j).rRounded).map
        (fun x => calculate_t_statistic x wide.length) ∧
    (analyzePair cdf wide i j).nUsed = (analyzePair cdf wide i' j').nUsed ∧
    ∃ w : List WideRow, ∃ a b : String,
      (analyzePair cdf w a b).nUsed ≠ pairCount w a b := by
  refine ⟨rfl, rfl, rfl, ⟨[⟨"c", "s1", [("x", some 1), ("y", some 2)]⟩,
    ⟨"c", "s2", [("x", some 3), ("y", none)]⟩], "x", "y", ?_⟩⟩
  have h1 : (analyzePair cdf [⟨"c", "s1", [("x", some 1), ("y", some 2)]⟩,
      ⟨"c", "s2", [("x", some 3), ("y", none)]⟩] "x" "y").nUsed = 2 := rfl
  rw [h1]
  decide

/-- Swapping the two columns swaps each paired observation. -/
theorem pairedVals_swap (wide : List WideRow) (i j : String) :
    pairedVals wide j i = (pairedVals wide i j).map Prod.swap := by
  induction wide with
  | nil => rfl
  | cons w ws ih =>
    simp only [pairedVals] at ih ⊢
    simp only [List.filterMap_cons]
    cases hi : lookupVal w i <;> cases hj : lookupVal w j <;> simp [hi, hj, ih]

/-- Mean of the first components after a swap is the mean of the second. -/
theorem xmean_swap (ps : List (ℚ × ℚ)) : xmean (ps.map Prod.swap) = ymean ps := by
  simp [xmean, ymean, meanQ, List.map_map, Function.comp_def]

/-- Mean of the second components after a swap is the mean of the first. -/
theorem ymean_swap (ps : List (ℚ × ℚ)) : ymean (ps.map Prod.swap) = xmean ps := by
  simp [xmean, ymean, meanQ, List.map_map, Function.comp_def]

/-- Squared-sum of the first components after a swap. -/
theorem sxx_swap (ps : List (ℚ × ℚ)) : sxx (ps.map Prod.swap) = syy ps := by
  simp [sxx, syy, xmean_swap, List.map_map, Function.comp_def]

/-- Squared-sum of the second components after a swap. -/
theorem syy_swap (ps : List (ℚ × ℚ)) : syy (ps.map Prod.swap) = sxx ps := by
  simp [sxx, syy, ymean_swap, List.map_map, Function.comp_def]

/-- The centred cross-product sum is invariant under a swap. -/
theorem sxy_swap (ps : List (ℚ × ℚ)) : sxy (ps.map Prod.swap) = sxy ps := by
  simp [sxy, xmean_swap, ymean_swap, List.map_map, Function.comp_def, mul_comm]

/-- Pearson correlation is invariant under swapping the columns. -/
theorem pearsonR_swap (ps : List (ℚ × ℚ)) : pearsonR (ps.map Prod.swap) = pearsonR ps := by
  unfold pearsonR
  rw [sxy_swap, sxx_swap, syy_swap, mul_comm (syy ps) (sxx ps)]

/-- The correlation-matrix entry is symmetric in its two columns. -/
theorem corrEntry_symm (wide : List WideRow) (i j : String) :
    corrEntry wide j i = corrEntry wide i j := by
  simp only [corrEntry]
  rw [pairedVals_swap wide i j]
  simp only [sxx_swap, syy_swap, pearsonR_swap, or_comm]

/-- Both components of a diagonal paired observation coincide. -/
theorem pairedVals_diag_eq (wide : List WideRow) (i : String) :
    ∀ p ∈ pairedVals wide i i, p.2 = p.1 := by
  intro p hp
  rw [pairedVals, List.mem_filterMap] at hp
  obtain ⟨w, _, hw⟩ := hp
  cases hv : lookupVal w i
  · rw [hv] at hw; simp at hw
  · rw [hv] at hw
    simp only [Option.some.injEq] at hw
    rw [← hw]

/-- A diagonal correlation entry with nonzero variance is exactly `1`. -/
theorem corrEntry_diag (wide : List WideRow) (i : String)
    (h : sxx (pairedVals wide i i) ≠ 0) :
    corrEntry wide i i = some 1 := by
  have hpq := pairedVals_diag_eq wide i
  set ps := pairedVals wide i i with hps
  have hym : ymean ps = xmean ps := by
    unfold ymean xmean
    congr 1
    exact List.map_congr_left fun p hp => hpq p hp
  have hsyy : syy ps = sxx ps := by
    unfold syy sxx
    exact congrArg List.sum (List.map_congr_left fun p hp => by rw [hpq p hp, hym])
  have hsxy : sxy ps = sxx ps := by
    unfold sxy sxx
    exact congrArg List.sum (List.map_congr_left fun p hp => by
      rw [hpq p hp, hym, ← pow_two])
  have h0 : (0 : ℚ) ≤ sxx ps := by
    unfold sxx
    apply List.sum_nonneg
    intro x hx
    rw [List.mem_map] at hx
    obtain ⟨p, _, rfl⟩ := hx
    positivity
  simp only [corrEntry]
  rw [← hps, if_neg (not_or.mpr ⟨h, by rw [hsyy]; exact h⟩)]
  congr 1
  unfold pearsonR
  rw [hsxy, hsyy]
  push_cast
  rw [Real.sqrt_mul_self (by exact_mod_cast h0), div_self (by exact_mod_cast h)]

/-- C8 counterexample: a wide table whose only column is constant (5, 5)
has an undefined (`NaN`, modelled `none`) diagonal correlation entry, not
`1.0`: the claim fails for zero-variance columns. -/
theorem corr_matrix_diag_counterexample :
    corrEntry [⟨"Size", "A", [("x", some 5)]⟩, ⟨"Size", "B", [("x", some 5)]⟩]
      "x" "x" ≠ some 1 := by
  have hps : pairedVals
      [⟨"Size", "A", [("x", some 5)]⟩, ⟨"Size", "B", [("x", some 5)]⟩] "x" "x" =
      [(5, 5), (5, 5)] := by decide
  have h : sxx [((5 : ℚ), (5 : ℚ)), (5, 5)] = 0 := by
    norm_num [sxx, xmean, meanQ]
  simp only [corrEntry, hps]
  rw [if_pos (Or.inl h)]
  simp

/-- C8 as amended: the correlation matrix is symmetric, `r_ij = r_ji`, for
every pair of columns; and a diagonal entry `r_ii` equals exactly `1.0`
provided column `i` has nonzero variance over its non-missing rows
(otherwise the entry is undefined — pandas `NaN`). -/
theorem corr_matrix_symm_and_diag (wide : List WideRow) (i j : String)
    (h : sxx (pairedVals wide i i) ≠ 0) :
    corrEntry wide i j = corrEntry wide j i ∧ corrEntry wide i i = some 1 :=
  ⟨(corrEntry_symm wide i j).symm, corrEntry_diag wide i h⟩

/-- Witness for the amended C8: a two-row table with a nonconstant column. -/
theorem corr_matrix_symm_and_diag_witness :
    corrEntry [⟨"S", "a", [("x", some 1)]⟩, ⟨"S", "b", [("x", some 3)]⟩] "x" "y" =
        corrEntry [⟨"S", "a", [("x", some 1)]⟩, ⟨"S", "b", [("x", some 3)]⟩] "y" "x" ∧
      corrEntry [⟨"S", "a", [("x", some 1)]⟩, ⟨"S", "b", [("x", some 3)]⟩] "x" "x" =
        some 1 :=
  corr_matrix_symm_and_diag
    [⟨"S", "a", [("x", some 1)]⟩, ⟨"S", "b", [("x", some 3)]⟩] "x" "y" (by
      have hps : pairedVals
          [⟨"S", "a", [("x", some 1)]⟩, ⟨"S", "b", [("x", some 3)]⟩] "x" "x" =
          [(1, 1), (3, 3)] := by decide
      rw [hps]
      norm_num [sxx, xmean, meanQ])

/-- The paired observations of the rounding witness table. -/
theorem roundingWitnessTable_pairs :
    pairedVals roundingWitnessTable "x" "y" =
      [(43, 83), (43, 41), (41, 43), (41, 1)] := by decide

/-- The `x`/`y` correlation entry of the rounding witness table is
exactly `20/29`. -/
theorem roundingWitnessTable_corr :
    corrEntry roundingWitnessTable "x" "y" = some ((20 : ℝ) / 29) := by
  have hsxx : sxx [((43 : ℚ), (83 : ℚ)), (43, 41), (41, 43), (41, 1)] = 4 := by
    norm_num [sxx, xmean, meanQ]
  have hsyy : syy [((43 : ℚ), (83 : ℚ)), (43, 41), (41, 43), (41, 1)] = 3364 := by
    norm_num [syy, ymean, meanQ]
  have hsxy : sxy [((43 : ℚ), (83 : ℚ)), (43, 41), (41, 43), (41, 1)] = 80 := by
    norm_num [sxy, xmean, ymean, meanQ]
  simp only [corrEntry, roundingWitnessTable_pairs]
  rw [if_neg (not_or.mpr ⟨by rw [hsxx]; norm_num, by rw [hsyy]; norm_num⟩)]
  unfold pearsonR
  rw [hsxx, hsyy, hsxy]
  have h4 : ((4 * 3364 : ℚ) : ℝ) = 116 ^ 2 := by norm_num
  rw [h4, Real.sqrt_sq (by norm_num : (0 : ℝ) ≤ 116)]
  norm_num

/-- Python `round(20/29, 2)` is `0.69`. -/
theorem roundR2_twentyNinths : roundR2 ((20 : ℝ) / 29) = 69 / 100 := by
  have hfloor : ⌊(100 * ((20 : ℝ) / 29))⌋ = 68 := by
    rw [Int.floor_eq_iff]
    constructor <;> norm_num
  have hfract : Int.fract (100 * ((20 : ℝ) / 29)) = 28 / 29 := by
    rw [Int.fract, hfloor]
    norm_num
  unfold roundR2 roundHalfEven
  simp only [hfract, hfloor]
  rw [if_neg (by norm_num), if_pos (by norm_num)]
  norm_num

/-- The t-statistic of the rounded coefficient `0.69` differs from the
t-statistic of the unrounded coefficient `20/29` at `n = 4`. -/
theorem t_statistic_rounding_matters :
    calculate_t_statistic ((69 : ℝ) / 100) 4 ≠ calculate_t_statistic ((20 : ℝ) / 29) 4 := by
  have ha : ¬ |(69 : ℝ) / 100| = 1 := by
    rw [abs_of_pos (by norm_num : (0 : ℝ) < 69 / 100)]
    norm_num
  have hb : ¬ |(20 : ℝ) / 29| = 1 := by
    rw [abs_of_pos (by norm_num : (0 : ℝ) < 20 / 29)]
    norm_num
  simp only [calculate_t_statistic, ha, hb, if_false, ne_eq, TVal.fin.injEq]
  intro hEq
  have h1sq : ((69 : ℝ) / 100 *
      Real.sqrt ((((4 : ℕ) : ℝ) - 2) / (1 - ((69 : ℝ) / 100) ^ 2))) ^ 2 = 9522 / 5239 := by
    rw [mul_pow, Real.sq_sqrt (by push_cast; norm_num)]
    push_cast
    norm_num
  have h2sq : ((20 : ℝ) / 29 *
      Real.sqrt ((((4 : ℕ) : ℝ) - 2) / (1 - ((20 : ℝ) / 29) ^ 2))) ^ 2 = 800 / 441 := by
    rw [mul_pow, Real.sq_sqrt (by push_cast; norm_num)]
    push_cast
    norm_num
  rw [hEq, h2sq] at h1sq
  norm_num at h1sq

/-- C10: the analysis loop rounds the Pearson coefficient to two decimals
first, so every reported statistic — rounded `r`, t-statistic, p-value,
significance tier, interpretation — is a function of the rounded
coefficient and the row count only; and on `roundingWitnessTable` the
reported t-statistic differs from the t-statistic of the unrounded
coefficient. -/
theorem stats_depend_only_on_rounded_r (cdf : ℝ → ℝ → ℝ) (wide wide' : List WideRow)
    (i j i' j' : String)
    (hr : (corrEntry wide i j).map roundR2 = (corrEntry wide' i' j').map roundR2)
    (hn : wide.length = wide'.length) :
    analyzePair cdf wide i j = analyzePair cdf wide' i' j' ∧
    ∃ w : List WideRow, ∃ a b : String,
      (analyzePair cdf w a b).t ≠
        (corrEntry w a b).map (fun x => calculate_t_statistic x w.length) := by
  constructor
  · simp only [analyzePair]
    rw [hr, hn]
  · refine ⟨roundingWitnessTable, "x", "y", ?_⟩
    have hlen : roundingWitnessTable.length = 4 := rfl
    simp only [analyzePair, hlen, roundingWitnessTable_corr, Option.map_some']
    rw [roundR2_twentyNinths]
    simp only [ne_eq, Option.some.injEq]
    exact t_statistic_rounding_matters

/-- Witness for C10: the rounding-invariance hypothesis discharged
reflexively at the concrete witness table. -/
theorem stats_depend_only_on_rounded_r_witness :
    analyzePair (fun _ _ => (0 : ℝ)) roundingWitnessTable "x" "y" =
        analyzePair (fun _ _ => (0 : ℝ)) roundingWitnessTable "x" "y" ∧
      ∃ w : List WideRow, ∃ a b : String,
        (analyzePair (fun _ _ => (0 : ℝ)) w a b).t ≠
          (corrEntry w a b).map (fun x => calculate_t_statistic x w.length) :=
  stats_depend_only_on_rounded_r (fun _ _ => (0 : ℝ)) roundingWitnessTable
    roundingWitnessTable "x" "y" "x" "y" rfl rfl
